import Mathlib

/-!
Shallow embedding of `spl_regex_portability_audit.py`: the quoted-span scanner,
command tokenizer, pattern extractors, feature detectors, compatibility
classifier, per-line analysis fold and CLI outcome, together with theorems
checking the specification's claims about them.

Strings are modelled as `List Char` (Python indexes code points); machine
integers do not occur.  Python's `s[i]` is always accessed behind a bounds
guard in the source, so it is embedded as `List.getD` with an inert default
(`' '` fails every character-class test used at such call sites).

Every `while` loop of the source advances its index by at least one per
iteration and exits once the index reaches the string length, so it runs at
most `length + 1` times; each loop is embedded structurally over that fuel
bound, which therefore never runs out.
-/

namespace SplAudit

open List

/-- ASCII `\w` of the source's regexes (the audited inputs are ASCII). -/
def isWordCharB (c : Char) : Bool :=
  c.isAlpha || c.isDigit || c == '_'

/-- The class `[A-Za-z_]`, the leading character of a capture-group name. -/
def isNameStart (c : Char) : Bool :=
  c.isAlpha || c == '_'

/-- Loop of `skipWsFrom`. -/
def skipWsFromF (s : List Char) : Nat → Nat → Nat
  | 0, j => j
  | fuel + 1, j =>
      if j < s.length then
        if (s.getD j ' ').isWhitespace then skipWsFromF s fuel (j+1) else j
      else j

/-- Index after the maximal whitespace run starting at `j` (`\s*`, and the
`while line[i].isspace()` loop of `extract_from_rex`). -/
def skipWsFrom (s : List Char) (j : Nat) : Nat :=
  skipWsFromF s (s.length + 1) j

/-- Standard-quote loop of `_scan_quoted`: scan from `i` for the closing
character `q`, a backslash skipping the next character; on success the
content is the raw slice from `start` up to the closing quote. -/
def scanSingleLoop (s : List Char) (q : Char) (start : Nat) : Nat → Nat → Option (Nat × List Char)
  | 0, _ => none
  | fuel + 1, i =>
      if i < s.length then
        if s.getD i ' ' = '\\' then scanSingleLoop s q start fuel (i+2)
        else if s.getD i ' ' = q then some (i + 1, (s.drop start).take (i - start))
        else scanSingleLoop s q start fuel (i+1)
      else none

/-- Doubled-quote loop of `_scan_quoted`: scan from `i` (while `i < n - 1`)
for an adjacent `""` pair; on success the content is the raw slice from
`start` up to the pair. -/
def scanDoubledLoop (s : List Char) (start : Nat) : Nat → Nat → Option (Nat × List Char)
  | 0, _ => none
  | fuel + 1, i =>
      if i < s.length - 1 then
        if s.getD i ' ' = '"' ∧ s.getD (i+1) ' ' = '"' then
          some (i + 2, (s.drop start).take (i - start))
        else scanDoubledLoop s start fuel (i+1)
      else none

/-- Embeds `_scan_quoted(s, i)`: try to scan one quoted literal starting at offset
`i`; the doubled double-quote dialect takes priority, otherwise the standard
single-character dialect with the opening character as terminator. -/
def scan_quoted (s : List Char) (i : Nat) : Option (Nat × List Char) :=
  if s.length ≤ i then none
  else if ¬ (s.getD i ' ' = '\'' ∨ s.getD i ' ' = '"') then none
  else if s.getD i ' ' = '"' ∧ i + 1 < s.length ∧ s.getD (i+1) ' ' = '"' then
    scanDoubledLoop s (i+2) (s.length + 1) (i+2)
  else
    scanSingleLoop s (s.getD i ' ') (i+1) (s.length + 1) (i+1)

/-- Whether the doubled double-quote dialect applies at offset `i`. -/
def isDoubledAt (s : List Char) (i : Nat) : Bool :=
  decide (i < s.length) && (s.getD i ' ' == '"')
    && decide (i + 1 < s.length) && (s.getD (i+1) ' ' == '"')

/-- Loop of `_find_all_quoted`. -/
def findAllQuotedF (s : List Char) : Nat → Nat → List (Nat × Nat × List Char)
  | 0, _ => []
  | fuel + 1, i =>
      if i < s.length then
        if s.getD i ' ' = '\'' ∨ s.getD i ' ' = '"' then
          match scan_quoted s i with
          | some (e, content) => (i, e, content) :: findAllQuotedF s fuel e
          | none => findAllQuotedF s fuel (i+1)
        else findAllQuotedF s fuel (i+1)
      else []

/-- Embeds `_find_all_quoted`: every quoted span of `s`, scanning left to right,
jumping past each successful span and advancing one character otherwise. -/
def find_all_quoted (s : List Char) : List (Nat × Nat × List Char) :=
  findAllQuotedF s (s.length + 1) 0

/-- A `PatternRecord` as emitted by both extractors (a dict in the source). -/
structure PatternRecord where
  cmd : String
  cmd_index_on_line : Nat
  field : String
  pattern : String
  pattern_index_in_cmd : Nat
deriving DecidableEq

/-- One case-insensitive whole-word keyword match at offset `j` (the
`(?<!\w)kw(?!\w)` idiom of `WORD_BOUNDARY`, evaluated inside `s`). -/
def matchKwAt (s : List Char) (kw : List Char) (j : Nat) : Bool :=
  decide (j + kw.length ≤ s.length)
    && (((s.drop j).take kw.length).map Char.toLower == kw)
    && (decide (j = 0) || !(isWordCharB (s.getD (j-1) ' ')))
    && (decide (s.length ≤ j + kw.length) || !(isWordCharB (s.getD (j + kw.length) ' ')))

/-- Loop of `_iter_command_tokens`. -/
def iterCommandTokensF (line : List Char) : Nat → Nat → List (String × Nat × Nat)
  | 0, _ => []
  | fuel + 1, j =>
      if j < line.length then
        if matchKwAt line "rex".data j then
          ("rex", j, j+3) :: iterCommandTokensF line fuel (j+3)
        else if matchKwAt line "regex".data j then
          ("regex", j, j+5) :: iterCommandTokensF line fuel (j+5)
        else iterCommandTokensF line fuel (j+1)
      else []

/-- Embeds `_iter_command_tokens`: all `rex`/`regex` whole-word occurrences, left to
right and non-overlapping, each with its token span; `rex` is the regex
alternation's first branch. -/
def iter_command_tokens (line : List Char) : List (String × Nat × Nat) :=
  iterCommandTokensF line (line.length + 1) 0

/-- Loop of `skipArgsFrom`. -/
def skipArgsFromF (line : List Char) : Nat → Nat → Nat
  | 0, i => i
  | fuel + 1, i =>
      if i < line.length then
        if line.getD i ' ' = '\'' ∨ line.getD i ' ' = '"' ∨ line.getD i ' ' = '|' then i
        else skipArgsFromF line fuel (i+1)
      else i

/-- The argument-prefix loop of `extract_from_rex`: advance until a quote
character, a `|`, or line end. -/
def skipArgsFrom (line : List Char) (i : Nat) : Nat :=
  skipArgsFromF line (line.length + 1) i

/-- The per-occurrence body of `extract_from_rex`'s loop: skip the argument
prefix, stop with no records on `|`/line end or scan failure, otherwise emit
the single record for this occurrence. -/
def rexRecordsFor (line : List Char) (cmdI : Nat) (cmd : String) (e : Nat) : List PatternRecord :=
  if cmd ≠ "rex" then []
  else if line.length ≤ skipArgsFrom line (skipWsFrom line e)
      ∨ line.getD (skipArgsFrom line (skipWsFrom line e)) ' ' = '|' then []
  else
    match scan_quoted line (skipArgsFrom line (skipWsFrom line e)) with
    | none => []
    | some (_, content) =>
        [{ cmd := "rex", cmd_index_on_line := cmdI, field := "",
           pattern := String.mk content, pattern_index_in_cmd := 1 }]

/-- Embeds `extract_from_rex`: enumerate all command tokens from 1 and collect the
records of the `rex` occurrences. -/
def extract_from_rex (line : List Char) : List PatternRecord :=
  ((iter_command_tokens line).enum.map fun p => rexRecordsFor line (p.1 + 1) p.2.1 p.2.2.2).flatten

/-- Loop of `searchKwFrom`. -/
def searchKwFromF (s : List Char) (kw : List Char) : Nat → Nat → Option Nat
  | 0, _ => none
  | fuel + 1, j =>
      if j < s.length then
        if matchKwAt s kw j then some j else searchKwFromF s kw fuel (j+1)
      else none

/-- First offset `k ≥ j` at which `kw` matches as a whole word (the
`re.search` in `extract_from_regex`, evaluated inside `s`). -/
def searchKwFrom (s : List Char) (kw : List Char) (j : Nat) : Option Nat :=
  searchKwFromF s kw (s.length + 1) j

/-- Loop of `findCharFrom`. -/
def findCharFromF (s : List Char) (c : Char) : Nat → Nat → Option Nat
  | 0, _ => none
  | fuel + 1, j =>
      if j < s.length then
        if s.getD j ' ' = c then some j else findCharFromF s c fuel (j+1)
      else none

/-- First index `k ≥ j` with `s[k] = c` (Python's `str.find(c, j)`). -/
def findCharFrom (s : List Char) (c : Char) (j : Nat) : Option Nat :=
  findCharFromF s c (s.length + 1) j

/-- Body of one `regex` command: from just after the keyword to the next
`|` (searched in the whole line, not quote-aware) or line end. -/
def regexBody (line : List Char) (e : Nat) : List Char :=
  match findCharFrom line '|' e with
  | some en => (line.drop e).take (en - e)
  | none => line.drop e

/-- The class `[^\s=|]` of the `field = value` regex. -/
def isFieldValChar (c : Char) : Bool :=
  !c.isWhitespace && !(c == '=') && !(c == '|')

/-- The class `[\w\.\-]` of the leading-assignment regex. -/
def isNameChar (c : Char) : Bool :=
  isWordCharB c || c == '.' || c == '-'

/-- One attempt of `\bfield\s*=\s*([^\s=|]+)` (case-insensitive) anchored at
offset `j` of the body; on success returns the captured value. -/
def fieldAssignValueAt (body : List Char) (j : Nat) : Option (List Char) :=
  if ((body.drop j).take 5).map Char.toLower = "field".data
      ∧ (j = 0 ∨ ¬ isWordCharB (body.getD (j-1) ' ') = true) then
    let k := skipWsFrom body (j+5)
    if body.getD k ' ' = '=' then
      let v := (body.drop (skipWsFrom body (k+1))).takeWhile isFieldValChar
      if v.isEmpty then none else some v
    else none
  else none

/-- Loop of `findFieldAssignFrom`. -/
def findFieldAssignFromF (body : List Char) : Nat → Nat → Option (List Char)
  | 0, _ => none
  | fuel + 1, j =>
      if j < body.length then
        match fieldAssignValueAt body j with
        | some v => some v
        | none => findFieldAssignFromF body fuel (j+1)
      else none

/-- Leftmost match of the `field = value` regex (`re.search` position scan). -/
def findFieldAssignFrom (body : List Char) (j : Nat) : Option (List Char) :=
  findFieldAssignFromF body (body.length + 1) j

/-- The `(?P<name>[\w\.\-]+)\s*=` tail of the leading-assignment regex,
anchored so the name starts at offset `q`. -/
def leadNameAt (body : List Char) (q : Nat) : Option (List Char) :=
  let nm := (body.drop q).takeWhile isNameChar
  if nm.isEmpty then none
  else if body.getD (skipWsFrom body (q + nm.length)) ' ' = '=' then some nm
  else none

/-- One attempt of `(?:^|\s)(?P<name>[\w\.\-]+)\s*=` at start position `p`
(`^` branch first, then the `\s` branch, as the alternation orders them). -/
def leadMatchAt (body : List Char) (p : Nat) : Option (List Char) :=
  if p = 0 then
    match leadNameAt body 0 with
    | some nm => some nm
    | none =>
        if 0 < body.length ∧ (body.getD 0 ' ').isWhitespace = true then leadNameAt body 1
        else none
  else if p < body.length ∧ (body.getD p ' ').isWhitespace = true then leadNameAt body (p+1)
  else none

/-- Loop of `findLeadFrom`. -/
def findLeadFromF (body : List Char) : Nat → Nat → Option (List Char)
  | 0, _ => none
  | fuel + 1, p =>
      if p ≤ body.length then
        match leadMatchAt body p with
        | some nm => some nm
        | none => findLeadFromF body fuel (p+1)
  else none

/-- Leftmost match of the leading-assignment regex. -/
def findLeadFrom (body : List Char) (p : Nat) : Option (List Char) :=
  findLeadFromF body (body.length + 2) p

/-- Best-effort field resolution of `extract_from_regex`: a `field = value`
assignment wins, else a leading `name =` assignment whose name is not the
word `field` (case-insensitive); otherwise the empty field. -/
def regexField (body : List Char) : List Char :=
  match findFieldAssignFrom body 0 with
  | some v => v
  | none =>
      match findLeadFrom body 0 with
      | some nm => if ¬ nm.map Char.toLower = "field".data then nm else []
      | none => []

/-- Loop of `extract_from_regex` (advances by at least the keyword length
each iteration, so the line-length fuel bound again suffices). -/
def extractFromRegexF (line : List Char) : Nat → Nat → Nat → List PatternRecord
  | 0, _, _ => []
  | fuel + 1, pos, cmdIndex =>
      match searchKwFrom (line.drop pos) "regex".data 0 with
      | none => []
      | some mj =>
          let e := pos + mj + 5
          let body := regexBody line e
          ((find_all_quoted body).enum.map fun q =>
            { cmd := "regex", cmd_index_on_line := cmdIndex + 1,
              field := String.mk (regexField body),
              pattern := String.mk q.2.2.2, pattern_index_in_cmd := q.1 + 1 })
          ++ extractFromRegexF line fuel e (cmdIndex + 1)

/-- The `while True` loop of `extract_from_regex`: search `regex` in the
slice `line[pos:]`, emit one record per quoted span of the command body with
pattern indices 1, 2, …, then continue after the keyword token. -/
def extract_from_regex (line : List Char) : List PatternRecord :=
  extractFromRegexF line (line.length + 1) 0 0

/-- Loop counting the `regex` keyword occurrences that
`extract_from_regex`'s loop finds (its `cmd_index` counts exactly these). -/
def regexKwCountF (line : List Char) : Nat → Nat → Nat
  | 0, _ => 0
  | fuel + 1, pos =>
      match searchKwFrom (line.drop pos) "regex".data 0 with
      | none => 0
      | some mj => regexKwCountF line fuel (pos + mj + 5) + 1

def regexKwCount (line : List Char) : Nat :=
  regexKwCountF line (line.length + 1) 0

/-- Does `p` occur at offset `j` of `s`? -/
def subAt (s p : List Char) (j : Nat) : Bool :=
  p.isPrefixOf (s.drop j)

/-- Is some offset of `s` accepted by `f` (`re.search` presence)? -/
def anyPos (s : List Char) (f : Nat → Bool) : Bool :=
  (List.range s.length).any f

/-- Does `p` occur anywhere in `s`? -/
def containsSub (s p : List Char) : Bool :=
  anyPos s (subAt s p)

def detLookahead (s : List Char) : Bool :=
  containsSub s "(?=".data || containsSub s "(?!".data

def detLookbehind (s : List Char) : Bool :=
  containsSub s "(?<=".data || containsSub s "(?<!".data

def detAtomicGroup (s : List Char) : Bool :=
  containsSub s "(?>".data

def detPossessive (s : List Char) : Bool :=
  anyPos s fun j =>
    (subAt s "++".data j || subAt s "*+".data j || subAt s "?+".data j)
      && (decide (j = 0) || !(s.getD (j-1) ' ' == '\\'))

def detBacktrackingControl (s : List Char) : Bool :=
  ["(*PRUNE)", "(*SKIP)", "(*COMMIT)", "(*THEN)", "(*ACCEPT)", "(*FAIL)"].any fun w =>
    containsSub s w.data

def detBranchReset (s : List Char) : Bool :=
  containsSub s "(?|".data

def detRecursion (s : List Char) : Bool :=
  containsSub s "(?R)".data || containsSub s "(?0)".data

def detSubroutineNumber (s : List Char) : Bool :=
  anyPos s fun j =>
    subAt s "\\g".data j
      && ((s.getD (j+2) ' ').isDigit
          || (s.getD (j+2) ' ' == '{'
              && !((s.drop (j+3)).takeWhile Char.isDigit).isEmpty
              && s.getD (j+3 + ((s.drop (j+3)).takeWhile Char.isDigit).length) ' ' == '}'))

def detSubroutineName (s : List Char) : Bool :=
  anyPos s fun j =>
    (subAt s "\\g".data j
      && (s.getD (j+2) ' ' == '\'' || s.getD (j+2) ' ' == '{')
      && isNameStart (s.getD (j+3) ' ')
      && (s.getD (j+4 + ((s.drop (j+4)).takeWhile isWordCharB).length) ' ' == '\''
          || s.getD (j+4 + ((s.drop (j+4)).takeWhile isWordCharB).length) ' ' == '}'))
    || (subAt s "(?&".data j
        && isNameStart (s.getD (j+3) ' ')
        && s.getD (j+4 + ((s.drop (j+4)).takeWhile isWordCharB).length) ' ' == ')')

def detConditional (s : List Char) : Bool :=
  anyPos s fun j => subAt s "(?(".data j && (s.drop (j+3)).any (· == ')')

def detCallout (s : List Char) : Bool :=
  anyPos s fun j =>
    subAt s "(?C".data j
      && s.getD (j+3 + ((s.drop (j+3)).takeWhile Char.isDigit).length) ' ' == ')'

def detNamedBackrefK (s : List Char) : Bool :=
  anyPos s fun j =>
    subAt s "\\k<".data j
      && !((s.drop (j+3)).takeWhile (fun c => !(c == '>'))).isEmpty
      && s.getD (j+3 + ((s.drop (j+3)).takeWhile (fun c => !(c == '>'))).length) ' ' == '>'

def detNamedCaptureAngle (s : List Char) : Bool :=
  anyPos s fun j =>
    subAt s "(?<".data j
      && isNameStart (s.getD (j+3) ' ')
      && s.getD (j+4 + ((s.drop (j+4)).takeWhile isWordCharB).length) ' ' == '>'

def detNamedCaptureSingle (s : List Char) : Bool :=
  anyPos s fun j =>
    subAt s "(?'".data j
      && isNameStart (s.getD (j+3) ' ')
      && s.getD (j+4 + ((s.drop (j+4)).takeWhile isWordCharB).length) ' ' == '\''

def detBackrefNumber (s : List Char) : Bool :=
  anyPos s fun j =>
    (s.getD j ' ' == '\\')
      && (decide ('1' ≤ s.getD (j+1) ' ') && decide (s.getD (j+1) ' ' ≤ '9'))
      && (decide (j = 0) || !(s.getD (j-1) ' ' == '\\'))

def detInlineFlags (s : List Char) : Bool :=
  anyPos s fun j =>
    subAt s "(?".data j
      && !((s.drop (j+2)).takeWhile
            (fun c => c == 'i' || c == 'm' || c == 's' || c == 'U' || c == 'x' || c == '-')).isEmpty
      && s.getD (j+2 + ((s.drop (j+2)).takeWhile
            (fun c => c == 'i' || c == 'm' || c == 's' || c == 'U' || c == 'x' || c == '-')).length)
          ' ' == ')'

def detModeModifier (s : List Char) : Bool :=
  (["(*UTF8)", "(*UTF)", "(*UCP)", "(*NO_START_OPT)"].any fun w => containsSub s w.data)
    || anyPos s fun j =>
        subAt s "(*BSR_".data j
          && !((s.drop (j+6)).takeWhile (fun c => decide ('A' ≤ c) && decide (c ≤ 'Z'))).isEmpty
          && s.getD (j+6 + ((s.drop (j+6)).takeWhile
                (fun c => decide ('A' ≤ c) && decide (c ≤ 'Z'))).length) ' ' == ')'

/-- The `DETECTORS` table, in the source's (insertion) order; each entry is
the presence semantics of the corresponding compiled regex. -/
def DETECTORS : List (String × (List Char → Bool)) :=
  [("lookahead", detLookahead), ("lookbehind", detLookbehind),
   ("atomic_group", detAtomicGroup), ("possessive_quantifier", detPossessive),
   ("backtracking_control", detBacktrackingControl), ("branch_reset", detBranchReset),
   ("recursion", detRecursion), ("subroutine_number", detSubroutineNumber),
   ("subroutine_name", detSubroutineName), ("conditional", detConditional),
   ("callout", detCallout), ("named_backref_k", detNamedBackrefK),
   ("named_capture_angle", detNamedCaptureAngle), ("named_capture_single", detNamedCaptureSingle),
   ("backref_number", detBackrefNumber), ("inline_flags", detInlineFlags),
   ("mode_modifier", detModeModifier)]

/-- Embeds `detect_features`: the names of the detectors that match the pattern. -/
def detect_features (pattern : List Char) : List String :=
  (DETECTORS.filter fun d => d.2 pattern).map (·.1)

/-- Code-point lexicographic strict order on character lists (Python's
string comparison used by `sorted`). -/
def lexLt : List Char → List Char → Bool
  | [], [] => false
  | [], _ :: _ => true
  | _ :: _, [] => false
  | a :: as, b :: bs => if a = b then lexLt as bs else decide (a < b)

def strLe (a b : String) : Prop :=
  lexLt b.data a.data = false

instance : DecidableRel strLe :=
  fun a b => instDecidableEqBool (lexLt b.data a.data) false

/-- Python's `sorted` on strings. -/
def sortStrings (l : List String) : List String :=
  List.insertionSort strLe l

def JAVA_INCOMPATIBLE : List String :=
  ["backtracking_control", "branch_reset", "recursion", "subroutine_number",
   "subroutine_name", "conditional", "callout", "mode_modifier"]

def LUCENE_INCOMPATIBLE : List String :=
  ["lookahead", "lookbehind", "atomic_group", "possessive_quantifier",
   "backtracking_control", "branch_reset", "recursion", "subroutine_number",
   "subroutine_name", "conditional", "callout", "named_backref_k",
   "named_capture_angle", "named_capture_single", "backref_number",
   "inline_flags", "mode_modifier"]

/-- The two supported target engines (an unknown engine string raises
`ValueError` in the source and is dead code in the program). -/
inductive Engine where
  | java
  | lucene
deriving DecidableEq

/-- Embeds `incompatible_for`: sorted offending features and the incompatibility
flag for one engine. -/
def incompatible_for (engine : Engine) (features : List String) : Bool × List String :=
  match engine with
  | .java =>
      let bad := sortStrings (features.filter fun f => decide (f ∈ JAVA_INCOMPATIBLE))
      (decide (0 < bad.length), bad)
  | .lucene =>
      let bad := sortStrings (features.filter fun f => decide (f ∈ LUCENE_INCOMPATIBLE))
      (decide (0 < bad.length), bad)

/-- One output row of `analyze_file` (the CSV serializes the feature lists
with commas; the lists themselves are kept here). -/
structure Row where
  line_number : Nat
  command : String
  cmd_index_on_line : Nat
  pattern_index_in_cmd : Nat
  field : String
  pattern : String
  features_detected : List String
  java_incompatible : Bool
  java_incompat_features : List String
  lucene_incompatible : Bool
  lucene_incompat_features : List String
  line : String
deriving DecidableEq

/-- The `totals` accumulator of `analyze_file`; the Python dicts of feature
counts become insertion-ordered association lists. -/
structure Totals where
  lines : Nat
  rex_commands : Nat
  regex_commands : Nat
  total_patterns : Nat
  java_incompatible_patterns : Nat
  lucene_incompatible_patterns : Nat
  java_feature_counts : List (String × Nat)
  lucene_feature_counts : List (String × Nat)
deriving DecidableEq

/-- The update `d[k] = d.get(k, 0) + 1` on an insertion-ordered association list. -/
def bumpCount (m : List (String × Nat)) (k : String) : List (String × Nat) :=
  match m with
  | [] => [(k, 1)]
  | (k', v) :: rest => if k' = k then (k', v + 1) :: rest else (k', v) :: bumpCount rest k

/-- The `for ftr in feats` counting loop. -/
def foldBump (m : List (String × Nat)) (fs : List String) : List (String × Nat) :=
  fs.foldl bumpCount m

def initialTotals : Totals :=
  { lines := 0, rex_commands := 0, regex_commands := 0, total_patterns := 0,
    java_incompatible_patterns := 0, lucene_incompatible_patterns := 0,
    java_feature_counts := [], lucene_feature_counts := [] }

/-- The `if java_bad:` block of `analyze_file`'s per-item body. -/
def bumpJava (t : Totals) (res : Bool × List String) : Totals :=
  if res.1 = true then
    { t with java_incompatible_patterns := t.java_incompatible_patterns + 1,
             java_feature_counts := foldBump t.java_feature_counts res.2 }
  else t

/-- The `if luc_bad:` block of `analyze_file`'s per-item body. -/
def bumpLucene (t : Totals) (res : Bool × List String) : Totals :=
  if res.1 = true then
    { t with lucene_incompatible_patterns := t.lucene_incompatible_patterns + 1,
             lucene_feature_counts := foldBump t.lucene_feature_counts res.2 }
  else t

/-- The row appended for one classified record. -/
def mkRow (lineNo : Nat) (line : String) (item : PatternRecord) : Row :=
  { line_number := lineNo, command := item.cmd,
    cmd_index_on_line := item.cmd_index_on_line,
    pattern_index_in_cmd := item.pattern_index_in_cmd, field := item.field,
    pattern := item.pattern,
    features_detected := detect_features item.pattern.data,
    java_incompatible := (incompatible_for Engine.java (detect_features item.pattern.data)).1,
    java_incompat_features := (incompatible_for Engine.java (detect_features item.pattern.data)).2,
    lucene_incompatible := (incompatible_for Engine.lucene (detect_features item.pattern.data)).1,
    lucene_incompat_features := (incompatible_for Engine.lucene (detect_features item.pattern.data)).2,
    line := line }

/-- The `for item in rex_items + regex_items` body of `analyze_file`:
classify one record, update the totals, append one row. -/
def processItem (lineNo : Nat) (line : String) (acc : List Row × Totals)
    (item : PatternRecord) : List Row × Totals :=
  (acc.1 ++ [mkRow lineNo line item],
   bumpLucene
     (bumpJava { acc.2 with total_patterns := acc.2.total_patterns + 1 }
       (incompatible_for Engine.java (detect_features item.pattern.data)))
     (incompatible_for Engine.lucene (detect_features item.pattern.data)))

/-- The `if rex_items:`/`if regex_items:` command counting of `analyze_file`
(counted by distinct command index, not by pattern count). -/
def updateCommandCounts (t : Totals) (rexItems regexItems : List PatternRecord) : Totals :=
  let t1 :=
    if rexItems.isEmpty then t
    else { t with rex_commands :=
             t.rex_commands + ((rexItems.map (·.cmd_index_on_line)).dedup).length }
  if regexItems.isEmpty then t1
  else { t1 with regex_commands :=
           t1.regex_commands + ((regexItems.map (·.cmd_index_on_line)).dedup).length }

/-- The per-line body of `analyze_file`: skip blank lines, count the line
and the distinct command occurrences, then fold every extracted record. -/
def processLine (acc : List Row × Totals) (p : Nat × String) : List Row × Totals :=
  if p.2.data.all Char.isWhitespace then acc
  else
    (extract_from_rex p.2.data ++ extract_from_regex p.2.data).foldl (processItem p.1 p.2)
      (acc.1, updateCommandCounts { acc.2 with lines := acc.2.lines + 1 }
        (extract_from_rex p.2.data) (extract_from_regex p.2.data))

/-- Embeds `analyze_file` over the already-decoded lines of the input (each without
its trailing newline), enumerated from 1 over ALL physical lines. -/
def analyzeLines (contents : List String) : List Row × Totals :=
  (List.enumFrom 1 contents).foldl processLine ([], initialTotals)

/-- Outcome of one CLI run: exit code, error-stream lines, and whether the
report files were written. -/
structure CliOutcome where
  exitCode : Nat
  errOutput : List String
  reportsWritten : Bool
deriving DecidableEq

def usageMessage : String :=
  "Usage: python spl_regex_portability_audit.py /path/to/queries.txt"

/-- Embeds `main`: `argv` includes the program name (Python's `sys.argv`), and the
existence of the input file is the only environment fact it branches on. -/
def main (argv : List String) (inputExists : Bool) : CliOutcome :=
  if argv.length ≠ 2 then
    { exitCode := 2, errOutput := [usageMessage], reportsWritten := false }
  else if inputExists = false then
    { exitCode := 1, errOutput := ["Input file not found: " ++ argv.getD 1 ""],
      reportsWritten := false }
  else
    { exitCode := 0, errOutput := [], reportsWritten := true }

/-- Modelled from the spec: the "decoded content (escapes resolved for the
backslash-escaped dialects)" of §3 — a backslash-escaped character appears
without its escaping backslash.  The source has no such decoding step; this
definition exists only to compare the spec's words with the code. -/
def decodeEscapes : List Char → List Char
  | [] => []
  | '\\' :: c :: rest => c :: decodeEscapes rest
  | c :: rest => c :: decodeEscapes rest

/-- Sum of the per-feature occurrence counts of one engine's counter dict. -/
def sumCounts (m : List (String × Nat)) : Nat :=
  (m.map (·.2)).sum

/-- Invariant tying the running totals to the rows emitted so far: for each
engine the incompatible-pattern count is the number of flagged rows, the
feature-count sum is the total number of offending features over flagged
rows, and every flagged row has at least one offending feature. -/
def StatsInv (st : List Row × Totals) : Prop :=
  st.2.java_incompatible_patterns = (st.1.filter (·.java_incompatible)).length
    ∧ sumCounts st.2.java_feature_counts
        = ((st.1.filter (·.java_incompatible)).map fun r => r.java_incompat_features.length).sum
    ∧ (∀ r ∈ st.1, r.java_incompatible = true → 0 < r.java_incompat_features.length)
    ∧ st.2.lucene_incompatible_patterns = (st.1.filter (·.lucene_incompatible)).length
    ∧ sumCounts st.2.lucene_feature_counts
        = ((st.1.filter (·.lucene_incompatible)).map fun r => r.lucene_incompat_features.length).sum
    ∧ (∀ r ∈ st.1, r.lucene_incompatible = true → 0 < r.lucene_incompat_features.length)

/-!
Theorems.

Helper lemmas first, then one theorem per claim of the specification (with
its witness or counterexample where applicable).
-/

theorem scanSingleLoop_bounds (s : List Char) (q : Char) (start : Nat) :
    ∀ fuel i e c, scanSingleLoop s q start fuel i = some (e, c) → i < e ∧ e ≤ s.length := by
  intro fuel
  induction fuel with
  | zero => intro i e c h; simp [scanSingleLoop] at h
  | succ fuel ih =>
      intro i e c h
      rw [scanSingleLoop] at h
      split at h
      · split at h
        · have := ih (i+2) e c h
          omega
        · split at h
          · simp only [Option.some.injEq, Prod.mk.injEq] at h
            omega
          · have := ih (i+1) e c h
            omega
      · simp at h

theorem scanDoubledLoop_bounds (s : List Char) (start : Nat) :
    ∀ fuel i e c, scanDoubledLoop s start fuel i = some (e, c) → i < e ∧ e ≤ s.length := by
  intro fuel
  induction fuel with
  | zero => intro i e c h; simp [scanDoubledLoop] at h
  | succ fuel ih =>
      intro i e c h
      rw [scanDoubledLoop] at h
      split at h
      · split at h
        · simp only [Option.some.injEq, Prod.mk.injEq] at h
          omega
        · have := ih (i+1) e c h
          omega
      · simp at h

theorem scan_quoted_bounds (s : List Char) (i e : Nat) (c : List Char)
    (h : scan_quoted s i = some (e, c)) : i < e ∧ e ≤ s.length := by
  rw [scan_quoted] at h
  split at h
  · simp at h
  · split at h
    · simp at h
    · split at h
      · have := scanDoubledLoop_bounds s (i+2) (s.length + 1) (i+2) e c h
        omega
      · have := scanSingleLoop_bounds s (s.getD i ' ') (i+1) (s.length + 1) (i+1) e c h
        omega

/-- Content lemma for the standard-quote loop: the returned content is the
raw slice of `s` between `start` and the closing quote. -/
theorem scanSingleLoop_content (s : List Char) (q : Char) (start : Nat) :
    ∀ fuel i e c, scanSingleLoop s q start fuel i = some (e, c) →
      c = (s.drop start).take (e - 1 - start) := by
  intro fuel
  induction fuel with
  | zero => intro i e c h; simp [scanSingleLoop] at h
  | succ fuel ih =>
      intro i e c h
      rw [scanSingleLoop] at h
      split at h
      · split at h
        · exact ih (i+2) e c h
        · split at h
          · simp only [Option.some.injEq, Prod.mk.injEq] at h
            obtain ⟨he, hc⟩ := h
            subst he
            simpa using hc.symm
          · exact ih (i+1) e c h
      · simp at h

/-- Content lemma for the doubled-quote loop: the returned content is the
raw slice of `s` between `start` and the closing `""` pair. -/
theorem scanDoubledLoop_content (s : List Char) (start : Nat) :
    ∀ fuel i e c, scanDoubledLoop s start fuel i = some (e, c) →
      c = (s.drop start).take (e - 2 - start) := by
  intro fuel
  induction fuel with
  | zero => intro i e c h; simp [scanDoubledLoop] at h
  | succ fuel ih =>
      intro i e c h
      rw [scanDoubledLoop] at h
      split at h
      · split at h
        · simp only [Option.some.injEq, Prod.mk.injEq] at h
          obtain ⟨he, hc⟩ := h
          subst he
          simpa using hc.symm
        · exact ih (i+1) e c h
      · simp at h

theorem searchKwFromF_some (s kw : List Char) :
    ∀ fuel j mj, searchKwFromF s kw fuel j = some mj →
      j ≤ mj ∧ mj + kw.length ≤ s.length ∧ matchKwAt s kw mj = true := by
  intro fuel
  induction fuel with
  | zero => intro j mj h; simp [searchKwFromF] at h
  | succ fuel ih =>
      intro j mj h
      rw [searchKwFromF] at h
      split at h
      · split at h
        · simp only [Option.some.injEq] at h
          subst h
          rename_i hm
          refine ⟨le_refl _, ?_, hm⟩
          have h1 := (Bool.and_eq_true ..).mp ((Bool.and_eq_true ..).mp
            ((Bool.and_eq_true ..).mp hm).1).1
          exact of_decide_eq_true h1.1
        · obtain ⟨h1, h2, h3⟩ := ih (j+1) mj h
          exact ⟨by omega, h2, h3⟩
      · simp at h

theorem searchKwFrom_some (s kw : List Char) (j mj : Nat)
    (h : searchKwFrom s kw j = some mj) :
    j ≤ mj ∧ mj + kw.length ≤ s.length ∧ matchKwAt s kw mj = true :=
  searchKwFromF_some s kw (s.length + 1) j mj h

theorem isDoubledAt_eq_true (s : List Char) (i : Nat) :
    isDoubledAt s i = true ↔
      (i < s.length ∧ s.getD i ' ' = '"' ∧ i + 1 < s.length ∧ s.getD (i+1) ' ' = '"') := by
  simp [isDoubledAt, Bool.and_eq_true, decide_eq_true_iff, beq_iff_eq, and_assoc]

/-- Claim C3: the quoted-span scanner is total — for every string and start
offset it returns either a successful span whose end offset `e` satisfies
`i < e ≤ length s`, or no span; being a total Lean function over guarded
accesses, it never errors and never reads past the line's length, and a
missing closing sequence simply lands in the `none` branch. -/
theorem scan_quoted_total (s : List Char) (i : Nat) :
    scan_quoted s i = none
      ∨ ∃ e c, scan_quoted s i = some (e, c) ∧ i < e ∧ e ≤ s.length := by
  match h : scan_quoted s i with
  | none => exact Or.inl rfl
  | some (e, c) =>
      obtain ⟨h1, h2⟩ := scan_quoted_bounds s i e c h
      exact Or.inr ⟨e, c, rfl, h1, h2⟩

/-- Claim C2 (counterexample): on `"a\"b"` the scanner succeeds but returns
the content WITH the escaping backslash retained (`a\"b`), not the decoded
content `a"b` that the claim's "escapes resolved" requires. -/
theorem scan_quoted_escape_not_decoded :
    scan_quoted "\"a\\\"b\"".data 0 = some (6, ['a', '\\', '"', 'b'])
      ∧ decodeEscapes ['a', '\\', '"', 'b'] = ['a', '"', 'b']
      ∧ (['a', '\\', '"', 'b'] : List Char) ≠ ['a', '"', 'b'] := by
  decide

/-- Claim C2 (amended): in every dialect, the content returned by a
successful scan is the raw slice of the input strictly between the opening
and closing quote markers, passed through unmodified — in the
backslash-escaped dialects a backslash only prevents the next character from
closing the scan and is NOT removed from the content. -/
theorem scan_quoted_content_raw (s : List Char) (i e : Nat) (c : List Char)
    (h : scan_quoted s i = some (e, c)) :
    (isDoubledAt s i = true → c = (s.drop (i+2)).take (e - 2 - (i+2)))
      ∧ (isDoubledAt s i = false → c = (s.drop (i+1)).take (e - 1 - (i+1))) := by
  rw [scan_quoted] at h
  split at h
  · simp at h
  · split at h
    · simp at h
    · rename_i hlen hq
      split at h
      · rename_i hd
        have hdT : isDoubledAt s i = true := by
          rw [isDoubledAt_eq_true]
          exact ⟨by omega, hd.1, hd.2.1, hd.2.2⟩
        refine ⟨fun _ => ?_, fun hF => ?_⟩
        · exact scanDoubledLoop_content s (i+2) (s.length + 1) (i+2) e c h
        · rw [hdT] at hF
          cases hF
      · rename_i hnd
        have hdF : isDoubledAt s i = false := by
          cases hb : isDoubledAt s i with
          | false => rfl
          | true =>
              exfalso
              rw [isDoubledAt_eq_true] at hb
              exact hnd ⟨hb.2.1, hb.2.2.1, hb.2.2.2⟩
        refine ⟨fun hT => ?_, fun _ => ?_⟩
        · rw [hdF] at hT
          cases hT
        · exact scanSingleLoop_content s (s.getD i ' ') (i+1) (s.length + 1) (i+1) e c h

theorem scan_quoted_content_raw_witness :
    (['a', '\\', '"', 'b'] : List Char) =
      (("\"a\\\"b\"".data).drop (0+1)).take (6 - 1 - (0+1)) :=
  (scan_quoted_content_raw "\"a\\\"b\"".data 0 6 ['a', '\\', '"', 'b'] (by decide)).2 (by decide)

/-- Claim C1 (counterexample): on `regex field=x ("a"|"b")` extraction yields
exactly ONE pattern record, not the two the claim states — the command body
is cut at the raw `|` between the fragments, which is not quote-aware, so
`"b"` lies outside the believed body. -/
theorem regex_two_fragments_one_record :
    (extract_from_regex "regex field=x (\"a\"|\"b\")".data).length = 1 := by
  decide

/-- Claim C1 (amended): for `regex field=x ("a"|"b")` the `|` terminator
truncates the command body after `"a"`, so extraction yields exactly one
record with pattern-index 1, field `x`, pattern `a`; the claimed two-record
behaviour (indices 1 and 2, shared field) does occur once no raw `|`
separates the fragments, as on `regex field=x ("a" "b")`. -/
theorem regex_pipe_truncated_extraction :
    extract_from_regex "regex field=x (\"a\"|\"b\")".data =
        [{ cmd := "regex", cmd_index_on_line := 1, field := "x", pattern := "a",
           pattern_index_in_cmd := 1 }]
      ∧ extract_from_regex "regex field=x (\"a\" \"b\")".data =
          [{ cmd := "regex", cmd_index_on_line := 1, field := "x", pattern := "a",
             pattern_index_in_cmd := 1 },
           { cmd := "regex", cmd_index_on_line := 1, field := "x", pattern := "b",
             pattern_index_in_cmd := 2 }] := by
  decide

/-- Claim C10: the program exits 0 after writing reports when the single
argument names an existing file, exits 1 when the named input file does not
exist, and exits 2 with the usage message on the error stream when the
argument count is wrong (including a missing argument). -/
theorem cli_exit_codes (argv : List String) (ex : Bool) :
    (argv.length = 2 → ex = true →
        main argv ex = ⟨0, [], true⟩)
      ∧ (argv.length = 2 → ex = false →
          main argv ex = ⟨1, ["Input file not found: " ++ argv.getD 1 ""], false⟩)
      ∧ (argv.length ≠ 2 →
          main argv ex = ⟨2, [usageMessage], false⟩) := by
  refine ⟨fun h2 hex => ?_, fun h2 hex => ?_, fun h2 => ?_⟩
  · rw [main, if_neg (by omega), hex, if_neg (by simp)]
  · rw [main, if_neg (by omega), hex, if_pos rfl]
  · rw [main, if_pos h2]

theorem cli_exit_codes_witness :
    main ["prog", "queries.txt"] true =
      { exitCode := 0, errOutput := [], reportsWritten := true } :=
  (cli_exit_codes ["prog", "queries.txt"] true).1 (by decide) rfl

theorem lexLt_irrefl : ∀ a, lexLt a a = false
  | [] => rfl
  | _ :: as => by simp [lexLt, lexLt_irrefl as]

theorem lexLt_trans : ∀ a b c, lexLt a b = true → lexLt b c = true → lexLt a c = true
  | [], [], _, hab, _ => by simp [lexLt] at hab
  | [], _ :: _, [], _, hbc => by simp [lexLt] at hbc
  | [], _ :: _, _ :: _, _, _ => rfl
  | _ :: _, [], _, hab, _ => by simp [lexLt] at hab
  | _ :: _, _ :: _, [], _, hbc => by simp [lexLt] at hbc
  | a :: as, b :: bs, c :: cs, hab, hbc => by
      simp only [lexLt] at hab hbc ⊢
      by_cases h1 : a = b
      · subst h1
        rw [if_pos rfl] at hab
        by_cases h2 : a = c
        · subst h2
          rw [if_pos rfl] at hbc ⊢
          exact lexLt_trans as bs cs hab hbc
        · rw [if_neg h2] at hbc ⊢
          exact hbc
      · rw [if_neg h1] at hab
        have hab' : a < b := of_decide_eq_true hab
        by_cases h2 : b = c
        · subst h2
          rw [if_neg h1]
          exact hab
        · rw [if_neg h2] at hbc
          have hbc' : b < c := of_decide_eq_true hbc
          have hac : a < c := lt_trans hab' hbc'
          rw [if_neg (ne_of_lt hac)]
          exact decide_eq_true hac

theorem lexLt_conn : ∀ a b, lexLt a b = false → lexLt b a = false → a = b
  | [], [], _, _ => rfl
  | [], _ :: _, hab, _ => by simp [lexLt] at hab
  | _ :: _, [], _, hba => by simp [lexLt] at hba
  | a :: as, b :: bs, hab, hba => by
      simp only [lexLt] at hab hba
      by_cases h : a = b
      · subst h
        rw [if_pos rfl] at hab hba
        rw [lexLt_conn as bs hab hba]
      · exfalso
        rw [if_neg h] at hab
        rw [if_neg (Ne.symm h)] at hba
        have h1 : ¬ a < b := of_decide_eq_false hab
        have h2 : ¬ b < a := of_decide_eq_false hba
        exact h (le_antisymm (le_of_not_lt h2) (le_of_not_lt h1))

theorem stringDataEq : ∀ {a b : String}, a.data = b.data → a = b :=
  fun h => congrArg String.mk h

instance : IsTotal String strLe where
  total a b := by
    unfold strLe
    cases hba : lexLt b.data a.data with
    | false => exact Or.inl rfl
    | true =>
        right
        cases hab : lexLt a.data b.data with
        | false => rfl
        | true =>
            exfalso
            have := lexLt_trans _ _ _ hab hba
            rw [lexLt_irrefl] at this
            cases this

instance : IsTrans String strLe where
  trans a b c hab hbc := by
    unfold strLe at *
    cases h : lexLt c.data a.data with
    | false => rfl
    | true =>
        exfalso
        cases hbc' : lexLt b.data c.data with
        | true =>
            have := lexLt_trans _ _ _ hbc' h
            rw [this] at hab
            cases hab
        | false =>
            have hbceq : b.data = c.data := lexLt_conn _ _ hbc' hbc
            rw [← hbceq] at h
            rw [h] at hab
            cases hab

instance : IsAntisymm String strLe where
  antisymm a b hab hba := stringDataEq (lexLt_conn a.data b.data hba hab)

/-- Claim C8: the java incompatibility table is a subset of the lucene one;
hence for every feature list, java-incompatibility implies
lucene-incompatibility and the java offending list is a sublist of the
lucene offending list. -/
theorem java_table_subset_lucene :
    (∀ f ∈ JAVA_INCOMPATIBLE, f ∈ LUCENE_INCOMPATIBLE)
      ∧ ∀ features : List String,
          ((incompatible_for Engine.java features).1 = true →
            (incompatible_for Engine.lucene features).1 = true)
          ∧ (incompatible_for Engine.java features).2 <+
              (incompatible_for Engine.lucene features).2 := by
  have hsub : ∀ f ∈ JAVA_INCOMPATIBLE, f ∈ LUCENE_INCOMPATIBLE := by decide
  refine ⟨hsub, fun features => ?_⟩
  have hfil : features.filter (fun f => decide (f ∈ JAVA_INCOMPATIBLE)) <+
      features.filter (fun f => decide (f ∈ LUCENE_INCOMPATIBLE)) :=
    List.monotone_filter_right features fun a ha =>
      decide_eq_true (hsub a (of_decide_eq_true ha))
  have hsl : (incompatible_for Engine.java features).2 <+
      (incompatible_for Engine.lucene features).2 := by
    simp only [incompatible_for, sortStrings]
    refine List.sublist_of_subperm_of_sorted ?_
      (List.sorted_insertionSort strLe _) (List.sorted_insertionSort strLe _)
    exact ((List.perm_insertionSort strLe _).subperm.trans hfil.subperm).trans
      (List.perm_insertionSort strLe _).symm.subperm
  refine ⟨fun hj => ?_, hsl⟩
  have hlen : (incompatible_for Engine.java features).2.length ≤
      (incompatible_for Engine.lucene features).2.length := hsl.length_le
  simp only [incompatible_for] at hj hlen ⊢
  have h0 : 0 < (sortStrings (features.filter
      fun f => decide (f ∈ JAVA_INCOMPATIBLE))).length := of_decide_eq_true hj
  exact decide_eq_true (by omega)

theorem java_table_subset_lucene_witness :
    (incompatible_for Engine.java ["recursion", "lookahead"]).2 <+
      (incompatible_for Engine.lucene ["recursion", "lookahead"]).2 :=
  (java_table_subset_lucene.2 ["recursion", "lookahead"]).2

/-- Claim C5: a feature set consisting solely of `named_capture_angle` (or of
`lookahead`, `lookbehind`, or `possessive_quantifier`) is incompatible for
lucene with that feature listed, and compatible for java; the input
`rex ""a(?<x>b)""` extracts pattern `a(?<x>b)`, whose detected feature set
is exactly `named_capture_angle`, and exhibits exactly this asymmetry. -/
theorem lucene_only_features_asymmetry :
    (∀ f ∈ (["lookahead", "lookbehind", "possessive_quantifier",
             "named_capture_angle"] : List String),
       ∀ fs : List String, fs ≠ [] → (∀ g ∈ fs, g = f) →
         (incompatible_for Engine.lucene fs).1 = true
           ∧ f ∈ (incompatible_for Engine.lucene fs).2
           ∧ (incompatible_for Engine.java fs).1 = false)
      ∧ extract_from_rex "rex \"\"a(?<x>b)\"\"".data =
          [{ cmd := "rex", cmd_index_on_line := 1, field := "", pattern := "a(?<x>b)",
             pattern_index_in_cmd := 1 }]
      ∧ detect_features "a(?<x>b)".data = ["named_capture_angle"]
      ∧ incompatible_for Engine.lucene ["named_capture_angle"] = (true, ["named_capture_angle"])
      ∧ incompatible_for Engine.java ["named_capture_angle"] = (false, []) := by
  refine ⟨?_, by decide, by decide, by decide, by decide⟩
  intro f hf fs hne hall
  have hfl : f ∈ LUCENE_INCOMPATIBLE := by fin_cases hf <;> decide
  have hfj : ¬ f ∈ JAVA_INCOMPATIBLE := by fin_cases hf <;> decide
  have hmemf : f ∈ fs := by
    obtain ⟨a, ha⟩ := List.exists_mem_of_ne_nil fs hne
    rw [← hall a ha]
    exact ha
  have hfilL : fs.filter (fun g => decide (g ∈ LUCENE_INCOMPATIBLE)) = fs := by
    rw [List.filter_eq_self]
    intro a ha
    rw [hall a ha]
    exact decide_eq_true hfl
  have hfilJ : fs.filter (fun g => decide (g ∈ JAVA_INCOMPATIBLE)) = [] := by
    rw [List.filter_eq_nil_iff]
    intro a ha
    rw [hall a ha]
    simp [hfj]
  refine ⟨?_, ?_, ?_⟩
  · simp only [incompatible_for, sortStrings, hfilL]
    have hp : 0 < fs.length := List.length_pos.mpr hne
    simp only [List.length_insertionSort]
    exact decide_eq_true hp
  · simp only [incompatible_for, sortStrings, hfilL]
    simpa [List.mem_insertionSort] using hmemf
  · simp only [incompatible_for, sortStrings, hfilJ]
    decide

theorem lucene_only_features_asymmetry_witness :
    (incompatible_for Engine.lucene ["lookbehind"]).1 = true
      ∧ "lookbehind" ∈ (incompatible_for Engine.lucene ["lookbehind"]).2
      ∧ (incompatible_for Engine.java ["lookbehind"]).1 = false :=
  lucene_only_features_asymmetry.1 "lookbehind" (by decide) ["lookbehind"] (by decide)
    (by decide)

theorem scan_quoted_none_cases (s : List Char) (i : Nat)
    (h : s.length ≤ i ∨ s.getD i ' ' = '|') : scan_quoted s i = none := by
  rw [scan_quoted]
  rcases h with h | h
  · rw [if_pos h]
  · by_cases hl : s.length ≤ i
    · rw [if_pos hl]
    · rw [if_neg hl, if_pos]
      rw [h]
      decide

/-- Claim C4: for any `rex` occurrence, the extractor emits zero records
exactly when the quoted-span scan at the end of the argument prefix fails —
which it always does when the prefix skip stopped at a `|` or at line end —
and otherwise emits exactly one record with pattern-index 1 and an empty
field name. -/
theorem rex_occurrence_zero_or_one (line : List Char) (cmdI e : Nat) :
    (rexRecordsFor line cmdI "rex" e = [] ↔
        scan_quoted line (skipArgsFrom line (skipWsFrom line e)) = none)
      ∧ (∀ en c, scan_quoted line (skipArgsFrom line (skipWsFrom line e)) = some (en, c) →
          rexRecordsFor line cmdI "rex" e =
            [{ cmd := "rex", cmd_index_on_line := cmdI, field := "",
               pattern := String.mk c, pattern_index_in_cmd := 1 }])
      ∧ (∀ i, (line.length ≤ i ∨ line.getD i ' ' = '|') → scan_quoted line i = none) := by
  refine ⟨⟨?_, ?_⟩, ?_, fun i h => scan_quoted_none_cases line i h⟩
  · intro h0
    by_cases hg : line.length ≤ skipArgsFrom line (skipWsFrom line e)
        ∨ line.getD (skipArgsFrom line (skipWsFrom line e)) ' ' = '|'
    · exact scan_quoted_none_cases line _ hg
    · rw [rexRecordsFor, if_neg (by simp), if_neg hg] at h0
      cases hsc : scan_quoted line (skipArgsFrom line (skipWsFrom line e)) with
      | none => rfl
      | some p =>
          obtain ⟨en, c⟩ := p
          rw [hsc] at h0
          simp at h0
  · intro hn
    rw [rexRecordsFor, if_neg (by simp)]
    by_cases hg : line.length ≤ skipArgsFrom line (skipWsFrom line e)
        ∨ line.getD (skipArgsFrom line (skipWsFrom line e)) ' ' = '|'
    · rw [if_pos hg]
    · rw [if_neg hg, hn]
  · intro en c hsc
    have hg : ¬ (line.length ≤ skipArgsFrom line (skipWsFrom line e)
        ∨ line.getD (skipArgsFrom line (skipWsFrom line e)) ' ' = '|') := by
      intro hg
      rw [scan_quoted_none_cases line _ hg] at hsc
      exact Option.noConfusion hsc
    rw [rexRecordsFor, if_neg (by simp), if_neg hg, hsc]

theorem rex_occurrence_zero_or_one_witness :
    rexRecordsFor "rex \"a\"".data 1 "rex" 3 =
      [{ cmd := "rex", cmd_index_on_line := 1, field := "", pattern := String.mk ['a'],
         pattern_index_in_cmd := 1 }] :=
  (rex_occurrence_zero_or_one "rex \"a\"".data 1 3).2.1 7 ['a'] (by decide)

/-- Claim C6 (counterexample): on `rex "a" | regex "b"` the unified keyword
scan sees two occurrences (`rex` then `regex`), yet the single record of
`extract_from_regex` carries command-occurrence index 1, not 2 — the regex
extractor numbers only `regex` occurrences, so the claimed common numbering
over all command-keyword occurrences is violated. -/
theorem regex_cmd_index_not_unified :
    ((iter_command_tokens "rex \"a\" | regex \"b\"".data).map (·.1) = ["rex", "regex"])
      ∧ ((extract_from_regex "rex \"a\" | regex \"b\"".data).map
          (·.cmd_index_on_line) = [1])
      ∧ ((extract_from_rex "rex \"a\" | regex \"b\"".data).map
          (·.cmd_index_on_line) = [1]) := by
  decide

theorem mem_rexRecordsFor {line : List Char} {ci : Nat} {cmd : String} {e : Nat}
    {r : PatternRecord} (h : r ∈ rexRecordsFor line ci cmd e) :
    cmd = "rex" ∧ r.cmd = "rex" ∧ r.cmd_index_on_line = ci ∧ r.field = ""
      ∧ r.pattern_index_in_cmd = 1 := by
  rw [rexRecordsFor] at h
  by_cases hcmd : cmd ≠ "rex"
  · rw [if_pos hcmd] at h
    simp at h
  · rw [if_neg hcmd] at h
    split at h
    · simp at h
    · split at h
      · simp at h
      · simp only [List.mem_singleton] at h
        subst h
        exact ⟨not_not.mp hcmd, rfl, rfl, rfl, rfl⟩

theorem extractFromRegexF_cmd_index (line : List Char) :
    ∀ fuel pos ci r, r ∈ extractFromRegexF line fuel pos ci →
      ci < r.cmd_index_on_line
        ∧ r.cmd_index_on_line ≤ ci + regexKwCountF line fuel pos := by
  intro fuel
  induction fuel with
  | zero => intro pos ci r h; simp [extractFromRegexF] at h
  | succ fuel ih =>
      intro pos ci r h
      rw [extractFromRegexF] at h
      cases hm : searchKwFrom (line.drop pos) "regex".data 0 with
      | none =>
          rw [hm] at h
          simp at h
      | some mj =>
          rw [hm] at h
          simp only [regexKwCountF, hm]
          simp only [List.mem_append] at h
          rcases h with h | h
          · obtain ⟨q, hq, rfl⟩ := List.mem_map.mp h
            show ci < ci + 1 ∧ ci + 1 ≤ ci + (regexKwCountF line fuel (pos + mj + 5) + 1)
            omega
          · have := ih _ _ _ h
            omega

/-- Claim C6 (amended): the rex extractor's command-occurrence index is the
1-based position of its originating token among ALL command-keyword
occurrences (rex and regex) of the line, and that token is a `rex`; the
regex extractor instead numbers only the `regex` keyword occurrences its own
scan finds, its indices lying in `1 .. regexKwCount line` — the two
extractors do not share one numbering. -/
theorem cmd_index_numbering :
    (∀ (line : List Char) (r : PatternRecord), r ∈ extract_from_rex line →
        ∃ k t, (k, t) ∈ (iter_command_tokens line).enum ∧ t.1 = "rex"
          ∧ r.cmd_index_on_line = k + 1)
      ∧ (∀ (line : List Char) (r : PatternRecord), r ∈ extract_from_regex line →
          1 ≤ r.cmd_index_on_line ∧ r.cmd_index_on_line ≤ regexKwCount line) := by
  constructor
  · intro line r h
    rw [extract_from_rex] at h
    obtain ⟨a, ha, hra⟩ := List.mem_flatten.mp h
    obtain ⟨p, hp, rfl⟩ := List.mem_map.mp ha
    obtain ⟨hcmd, _, hci, _, _⟩ := mem_rexRecordsFor hra
    exact ⟨p.1, p.2, hp, hcmd, hci⟩
  · intro line r h
    rw [extract_from_regex] at h
    have hb := extractFromRegexF_cmd_index line (line.length + 1) 0 0 r h
    rw [regexKwCount]
    omega

theorem cmd_index_numbering_witness :
    1 ≤ ({ cmd := "regex", cmd_index_on_line := 1, field := "", pattern := "b",
           pattern_index_in_cmd := 1 } : PatternRecord).cmd_index_on_line
      ∧ ({ cmd := "regex", cmd_index_on_line := 1, field := "", pattern := "b",
           pattern_index_in_cmd := 1 } : PatternRecord).cmd_index_on_line
          ≤ regexKwCount "rex \"a\" | regex \"b\"".data :=
  cmd_index_numbering.2 "rex \"a\" | regex \"b\"".data _ (by decide)

/-- Claim C7 (counterexample): with an empty first line, the single pattern
sits on the FIRST non-empty line but its stored line number is 2 — the code
numbers over all physical lines (`enumerate(f, start=1)`), not over
non-empty lines only (the totals' `lines` field, by contrast, counts only
non-empty lines). -/
theorem line_number_counts_all_lines :
    ((analyzeLines ["", "rex \"a\""]).1).map (·.line_number) = [2]
      ∧ (analyzeLines ["", "rex \"a\""]).2.lines = 1 := by
  decide

/-- Generic fold invariant used to reason about `analyze_file`'s folds. -/
theorem foldl_invariant {α β : Type} (f : β → α → β) (P : β → Prop) (Q : α → Prop) :
    ∀ (l : List α) (b : β), P b → (∀ x ∈ l, Q x) →
      (∀ b' a, P b' → Q a → P (f b' a)) → P (l.foldl f b) := by
  intro l
  induction l with
  | nil =>
      intro b hb _ _
      exact hb
  | cons x rest ih =>
      intro b hb hq hstep
      rw [List.foldl_cons]
      exact ih _ (hstep b x hb (hq x (List.mem_cons_self ..)))
        (fun y hy => hq y (List.mem_cons_of_mem _ hy)) hstep

theorem processItem_rows (lineNo : Nat) (line : String) (acc : List Row × Totals)
    (item : PatternRecord) :
    ∃ row : Row, (processItem lineNo line acc item).1 = acc.1 ++ [row]
      ∧ row.line_number = lineNo ∧ row.line = line :=
  ⟨_, rfl, rfl, rfl⟩

theorem foldl_processItem_rows (lineNo : Nat) (line : String) :
    ∀ (items : List PatternRecord) (rows : List Row) (t : Totals) (r : Row),
      r ∈ (items.foldl (processItem lineNo line) (rows, t)).1 →
      r ∈ rows ∨ (r.line_number = lineNo ∧ r.line = line) := by
  intro items
  induction items with
  | nil =>
      intro rows t r h
      exact Or.inl h
  | cons it rest ih =>
      intro rows t r h
      rw [List.foldl_cons] at h
      obtain ⟨row, heq, h1, h2⟩ := processItem_rows lineNo line (rows, t) it
      rcases hsplit : processItem lineNo line (rows, t) it with ⟨rows', t'⟩
      rw [hsplit] at h heq
      rcases ih rows' t' r h with h' | h'
      · have heq' : rows' = rows ++ [row] := heq
        rw [heq'] at h'
        rcases List.mem_append.mp h' with h'' | h''
        · exact Or.inl h''
        · obtain rfl := List.mem_singleton.mp h''
          exact Or.inr ⟨h1, h2⟩
      · exact Or.inr h' 

theorem processLine_rows (acc : List Row × Totals) (p : Nat × String) (r : Row)
    (h : r ∈ (processLine acc p).1) :
    r ∈ acc.1 ∨ (r.line_number = p.1 ∧ r.line = p.2) := by
  rw [processLine] at h
  split at h
  · exact Or.inl h
  · exact foldl_processItem_rows p.1 p.2 _ _ _ r h

theorem mem_enumFrom_facts (contents : List String) (p : Nat × String)
    (hp : p ∈ List.enumFrom 1 contents) :
    1 ≤ p.1 ∧ p.1 ≤ contents.length ∧ contents.getD (p.1 - 1) "" = p.2 := by
  obtain ⟨a, b⟩ := p
  rw [List.mk_mem_enumFrom_iff_le_and_getElem?_sub] at hp
  obtain ⟨h1, h2⟩ := hp
  have h3 : ¬ contents.length ≤ a - 1 := fun hh => by
    simp [List.getElem?_eq_none hh] at h2
  exact ⟨h1, by omega, by simp [List.getD_eq_getElem?_getD, h2]⟩

/-- Claim C7 (amended): every emitted row's stored line number is the
1-based PHYSICAL index of its originating line in the file — empty lines
included in the count — so the line at that physical position is exactly the
row's `line` field; only the aggregate `lines` total is restricted to
non-empty lines. -/
theorem line_number_is_physical (contents : List String) :
    ∀ r ∈ (analyzeLines contents).1,
      1 ≤ r.line_number ∧ r.line_number ≤ contents.length
        ∧ contents.getD (r.line_number - 1) "" = r.line := by
  rw [analyzeLines]
  refine foldl_invariant processLine
    (fun st => ∀ r ∈ st.1,
      1 ≤ r.line_number ∧ r.line_number ≤ contents.length
        ∧ contents.getD (r.line_number - 1) "" = r.line)
    (fun p => 1 ≤ p.1 ∧ p.1 ≤ contents.length ∧ contents.getD (p.1 - 1) "" = p.2)
    (List.enumFrom 1 contents) ([], initialTotals)
    ?_ (fun p hp => mem_enumFrom_facts contents p hp) ?_
  · intro r hr
    simp at hr
  · intro st p hst hq r hr
    rcases processLine_rows st p r hr with h' | h'
    · exact hst r h'
    · obtain ⟨hn, hl⟩ := h'
      rw [hn, hl]
      exact hq

theorem line_number_is_physical_witness :
    1 ≤ ({ line_number := 2, command := "rex", cmd_index_on_line := 1,
           pattern_index_in_cmd := 1, field := "", pattern := "a",
           features_detected := [], java_incompatible := false,
           java_incompat_features := [], lucene_incompatible := false,
           lucene_incompat_features := [], line := "rex \"a\"" } : Row).line_number
      ∧ ({ line_number := 2, command := "rex", cmd_index_on_line := 1,
           pattern_index_in_cmd := 1, field := "", pattern := "a",
           features_detected := [], java_incompatible := false,
           java_incompat_features := [], lucene_incompatible := false,
           lucene_incompat_features := [], line := "rex \"a\"" } : Row).line_number
          ≤ (["", "rex \"a\""] : List String).length
      ∧ (["", "rex \"a\""] : List String).getD
          (({ line_number := 2, command := "rex", cmd_index_on_line := 1,
              pattern_index_in_cmd := 1, field := "", pattern := "a",
              features_detected := [], java_incompatible := false,
              java_incompat_features := [], lucene_incompatible := false,
              lucene_incompat_features := [], line := "rex \"a\"" } : Row).line_number - 1) ""
        = ({ line_number := 2, command := "rex", cmd_index_on_line := 1,
             pattern_index_in_cmd := 1, field := "", pattern := "a",
             features_detected := [], java_incompatible := false,
             java_incompat_features := [], lucene_incompatible := false,
             lucene_incompat_features := [], line := "rex \"a\"" } : Row).line :=
  line_number_is_physical ["", "rex \"a\""]
    { line_number := 2, command := "rex", cmd_index_on_line := 1,
      pattern_index_in_cmd := 1, field := "", pattern := "a",
      features_detected := [], java_incompatible := false,
      java_incompat_features := [], lucene_incompatible := false,
      lucene_incompat_features := [], line := "rex \"a\"" }
    (by decide)


theorem sumCounts_bumpCount (m : List (String × Nat)) (k : String) :
    sumCounts (bumpCount m k) = sumCounts m + 1 := by
  induction m with
  | nil => simp [bumpCount, sumCounts]
  | cons hd rest ih =>
      obtain ⟨k', v⟩ := hd
      rw [bumpCount]
      split
      · simp only [sumCounts, List.map_cons, List.sum_cons]
        omega
      · simp only [sumCounts, List.map_cons, List.sum_cons] at ih ⊢
        omega

theorem sumCounts_foldBump (m : List (String × Nat)) (fs : List String) :
    sumCounts (foldBump m fs) = sumCounts m + fs.length := by
  induction fs generalizing m with
  | nil => simp [foldBump]
  | cons f rest ih =>
      rw [foldBump, List.foldl_cons]
      have hrec := ih (bumpCount m f)
      rw [foldBump] at hrec
      rw [hrec, sumCounts_bumpCount]
      simp only [List.length_cons]
      omega

theorem incompatible_for_flag (e : Engine) (fs : List String)
    (h : (incompatible_for e fs).1 = true) : 0 < (incompatible_for e fs).2.length := by
  cases e <;>
  · simp only [incompatible_for] at h ⊢
    exact of_decide_eq_true h


theorem bumpLucene_java_fields (t : Totals) (res : Bool × List String) :
    (bumpLucene t res).java_incompatible_patterns = t.java_incompatible_patterns
      ∧ (bumpLucene t res).java_feature_counts = t.java_feature_counts := by
  rw [bumpLucene]
  split <;> exact ⟨rfl, rfl⟩

theorem bumpJava_lucene_fields (t : Totals) (res : Bool × List String) :
    (bumpJava t res).lucene_incompatible_patterns = t.lucene_incompatible_patterns
      ∧ (bumpJava t res).lucene_feature_counts = t.lucene_feature_counts := by
  rw [bumpJava]
  split <;> exact ⟨rfl, rfl⟩

theorem bumpJava_count (t : Totals) (res : Bool × List String) :
    (bumpJava t res).java_incompatible_patterns =
      t.java_incompatible_patterns + (if res.1 = true then 1 else 0) := by
  rw [bumpJava]
  split <;> simp_all

theorem bumpJava_sum (t : Totals) (res : Bool × List String) :
    sumCounts (bumpJava t res).java_feature_counts =
      sumCounts t.java_feature_counts + (if res.1 = true then res.2.length else 0) := by
  rw [bumpJava]
  split <;> simp_all [sumCounts_foldBump]

theorem bumpLucene_count (t : Totals) (res : Bool × List String) :
    (bumpLucene t res).lucene_incompatible_patterns =
      t.lucene_incompatible_patterns + (if res.1 = true then 1 else 0) := by
  rw [bumpLucene]
  split <;> simp_all

theorem bumpLucene_sum (t : Totals) (res : Bool × List String) :
    sumCounts (bumpLucene t res).lucene_feature_counts =
      sumCounts t.lucene_feature_counts + (if res.1 = true then res.2.length else 0) := by
  rw [bumpLucene]
  split <;> simp_all [sumCounts_foldBump]

theorem processItem_java_inv (lineNo : Nat) (line : String) (acc : List Row × Totals)
    (item : PatternRecord)
    (h1 : acc.2.java_incompatible_patterns = (acc.1.filter (·.java_incompatible)).length)
    (h2 : sumCounts acc.2.java_feature_counts
        = ((acc.1.filter (·.java_incompatible)).map fun r => r.java_incompat_features.length).sum)
    (h3 : ∀ r ∈ acc.1, r.java_incompatible = true → 0 < r.java_incompat_features.length) :
    (processItem lineNo line acc item).2.java_incompatible_patterns
        = ((processItem lineNo line acc item).1.filter (·.java_incompatible)).length
      ∧ sumCounts (processItem lineNo line acc item).2.java_feature_counts
        = (((processItem lineNo line acc item).1.filter (·.java_incompatible)).map
            fun r => r.java_incompat_features.length).sum
      ∧ ∀ r ∈ (processItem lineNo line acc item).1, r.java_incompatible = true →
          0 < r.java_incompat_features.length := by
  have hrow : (mkRow lineNo line item).java_incompatible
      = (incompatible_for Engine.java (detect_features item.pattern.data)).1 := rfl
  have hrowf : (mkRow lineNo line item).java_incompat_features
      = (incompatible_for Engine.java (detect_features item.pattern.data)).2 := rfl
  have hfst : (processItem lineNo line acc item).1 = acc.1 ++ [mkRow lineNo line item] := rfl
  have hsnd1 : (processItem lineNo line acc item).2.java_incompatible_patterns
      = acc.2.java_incompatible_patterns
        + (if (incompatible_for Engine.java (detect_features item.pattern.data)).1 = true
           then 1 else 0) := by
    show (bumpLucene _ _).java_incompatible_patterns = _
    rw [(bumpLucene_java_fields _ _).1, bumpJava_count]
  have hsnd2 : sumCounts (processItem lineNo line acc item).2.java_feature_counts
      = sumCounts acc.2.java_feature_counts
        + (if (incompatible_for Engine.java (detect_features item.pattern.data)).1 = true
           then (incompatible_for Engine.java (detect_features item.pattern.data)).2.length
           else 0) := by
    show sumCounts (bumpLucene _ _).java_feature_counts = _
    rw [(bumpLucene_java_fields _ _).2, bumpJava_sum]
  rw [hfst, hsnd1, hsnd2]
  by_cases hj : (incompatible_for Engine.java (detect_features item.pattern.data)).1 = true
  · refine ⟨?_, ?_, ?_⟩
    · rw [if_pos hj, h1]
      simp [List.filter_append, List.filter_singleton, hrow, hj]
    · rw [if_pos hj, h2]
      simp [List.filter_append, List.filter_singleton, hrow, hrowf, hj]
    · intro r hr hflag
      rcases List.mem_append.mp hr with hr | hr
      · exact h3 r hr hflag
      · obtain rfl := List.mem_singleton.mp hr
        rw [hrowf]
        exact incompatible_for_flag _ _ hj
  · refine ⟨?_, ?_, ?_⟩
    · rw [if_neg hj, h1]
      simp [List.filter_append, List.filter_singleton, hrow, hj]
    · rw [if_neg hj, h2]
      simp [List.filter_append, List.filter_singleton, hrow, hj]
    · intro r hr hflag
      rcases List.mem_append.mp hr with hr | hr
      · exact h3 r hr hflag
      · obtain rfl := List.mem_singleton.mp hr
        rw [hrow] at hflag
        exact absurd hflag hj

theorem processItem_lucene_inv (lineNo : Nat) (line : String) (acc : List Row × Totals)
    (item : PatternRecord)
    (h4 : acc.2.lucene_incompatible_patterns = (acc.1.filter (·.lucene_incompatible)).length)
    (h5 : sumCounts acc.2.lucene_feature_counts
        = ((acc.1.filter (·.lucene_incompatible)).map fun r => r.lucene_incompat_features.length).sum)
    (h6 : ∀ r ∈ acc.1, r.lucene_incompatible = true → 0 < r.lucene_incompat_features.length) :
    (processItem lineNo line acc item).2.lucene_incompatible_patterns
        = ((processItem lineNo line acc item).1.filter (·.lucene_incompatible)).length
      ∧ sumCounts (processItem lineNo line acc item).2.lucene_feature_counts
        = (((processItem lineNo line acc item).1.filter (·.lucene_incompatible)).map
            fun r => r.lucene_incompat_features.length).sum
      ∧ ∀ r ∈ (processItem lineNo line acc item).1, r.lucene_incompatible = true →
          0 < r.lucene_incompat_features.length := by
  have hrow : (mkRow lineNo line item).lucene_incompatible
      = (incompatible_for Engine.lucene (detect_features item.pattern.data)).1 := rfl
  have hrowf : (mkRow lineNo line item).lucene_incompat_features
      = (incompatible_for Engine.lucene (detect_features item.pattern.data)).2 := rfl
  have hfst : (processItem lineNo line acc item).1 = acc.1 ++ [mkRow lineNo line item] := rfl
  have hsnd1 : (processItem lineNo line acc item).2.lucene_incompatible_patterns
      = acc.2.lucene_incompatible_patterns
        + (if (incompatible_for Engine.lucene (detect_features item.pattern.data)).1 = true
           then 1 else 0) := by
    show (bumpLucene _ _).lucene_incompatible_patterns = _
    rw [bumpLucene_count, (bumpJava_lucene_fields _ _).1]
  have hsnd2 : sumCounts (processItem lineNo line acc item).2.lucene_feature_counts
      = sumCounts acc.2.lucene_feature_counts
        + (if (incompatible_for Engine.lucene (detect_features item.pattern.data)).1 = true
           then (incompatible_for Engine.lucene (detect_features item.pattern.data)).2.length
           else 0) := by
    show sumCounts (bumpLucene _ _).lucene_feature_counts = _
    rw [bumpLucene_sum, (bumpJava_lucene_fields _ _).2]
  rw [hfst, hsnd1, hsnd2]
  by_cases hl : (incompatible_for Engine.lucene (detect_features item.pattern.data)).1 = true
  · refine ⟨?_, ?_, ?_⟩
    · rw [if_pos hl, h4]
      simp [List.filter_append, List.filter_singleton, hrow, hl]
    · rw [if_pos hl, h5]
      simp [List.filter_append, List.filter_singleton, hrow, hrowf, hl]
    · intro r hr hflag
      rcases List.mem_append.mp hr with hr | hr
      · exact h6 r hr hflag
      · obtain rfl := List.mem_singleton.mp hr
        rw [hrowf]
        exact incompatible_for_flag _ _ hl
  · refine ⟨?_, ?_, ?_⟩
    · rw [if_neg hl, h4]
      simp [List.filter_append, List.filter_singleton, hrow, hl]
    · rw [if_neg hl, h5]
      simp [List.filter_append, List.filter_singleton, hrow, hl]
    · intro r hr hflag
      rcases List.mem_append.mp hr with hr | hr
      · exact h6 r hr hflag
      · obtain rfl := List.mem_singleton.mp hr
        rw [hrow] at hflag
        exact absurd hflag hl

theorem processItem_statsInv (lineNo : Nat) (line : String) (acc : List Row × Totals)
    (item : PatternRecord) (h : StatsInv acc) : StatsInv (processItem lineNo line acc item) := by
  obtain ⟨h1, h2, h3, h4, h5, h6⟩ := h
  obtain ⟨a1, a2, a3⟩ := processItem_java_inv lineNo line acc item h1 h2 h3
  obtain ⟨b1, b2, b3⟩ := processItem_lucene_inv lineNo line acc item h4 h5 h6
  exact ⟨a1, a2, a3, b1, b2, b3⟩


theorem updateCommandCounts_stats (t : Totals) (rexItems regexItems : List PatternRecord) :
    (updateCommandCounts t rexItems regexItems).java_incompatible_patterns
        = t.java_incompatible_patterns
      ∧ (updateCommandCounts t rexItems regexItems).java_feature_counts
        = t.java_feature_counts
      ∧ (updateCommandCounts t rexItems regexItems).lucene_incompatible_patterns
        = t.lucene_incompatible_patterns
      ∧ (updateCommandCounts t rexItems regexItems).lucene_feature_counts
        = t.lucene_feature_counts := by
  simp only [updateCommandCounts]
  split <;> split <;> exact ⟨rfl, rfl, rfl, rfl⟩

theorem processLine_statsInv (acc : List Row × Totals) (p : Nat × String)
    (h : StatsInv acc) : StatsInv (processLine acc p) := by
  rw [processLine]
  split
  · exact h
  · refine foldl_invariant (processItem p.1 p.2) StatsInv (fun _ => True) _ _ ?_
      (fun x hx => trivial) (fun b a hb _ => processItem_statsInv p.1 p.2 b a hb)
    obtain ⟨h1, h2, h3, h4, h5, h6⟩ := h
    obtain ⟨u1, u2, u3, u4⟩ := updateCommandCounts_stats
      { acc.2 with lines := acc.2.lines + 1 }
      (extract_from_rex p.2.data) (extract_from_regex p.2.data)
    exact ⟨u1.trans h1, (congrArg sumCounts u2).trans h2, h3,
      u3.trans h4, (congrArg sumCounts u4).trans h5, h6⟩

theorem analyzeLines_statsInv (contents : List String) : StatsInv (analyzeLines contents) := by
  rw [analyzeLines]
  refine foldl_invariant processLine StatsInv (fun _ => True) _ _ ?_
    (fun x hx => trivial) (fun b a hb _ => processLine_statsInv b a hb)
  exact ⟨rfl, rfl, fun r hr => absurd hr (List.not_mem_nil r), rfl, rfl,
    fun r hr => absurd hr (List.not_mem_nil r)⟩

theorem sum_length_ones (l : List Nat) (h : ∀ x ∈ l, 1 ≤ x) :
    l.length ≤ l.sum ∧ (l.sum = l.length ↔ ∀ x ∈ l, x = 1) := by
  induction l with
  | nil => simp
  | cons x rest ih =>
      have hx := h x (List.mem_cons_self ..)
      obtain ⟨ih1, ih2⟩ := ih (fun y hy => h y (List.mem_cons_of_mem _ hy))
      constructor
      · simp only [List.sum_cons, List.length_cons]
        omega
      · simp only [List.sum_cons, List.length_cons, List.mem_cons]
        constructor
        · intro he
          have hx1 : x = 1 := by omega
          have hrest : rest.sum = rest.length := by omega
          intro y hy
          rcases hy with rfl | hy
          · exact hx1
          · exact (ih2.mp hrest) y hy
        · intro hall
          have hx1 : x = 1 := hall x (Or.inl rfl)
          have hrest : rest.sum = rest.length := ih2.mpr (fun y hy => hall y (Or.inr hy))
          omega

theorem counts_sum_engine (rows : List Row) (flag : Row → Bool) (feats : Row → List String)
    (count sum : Nat)
    (hc : count = (rows.filter flag).length)
    (hs : sum = ((rows.filter flag).map fun r => (feats r).length).sum)
    (hpos : ∀ r ∈ rows, flag r = true → 0 < (feats r).length) :
    count ≤ sum ∧ (sum = count ↔ ∀ r ∈ rows, flag r = true → (feats r).length = 1) := by
  subst hc hs
  have hlen := List.length_map (rows.filter flag) (fun r => (feats r).length)
  have hall : ∀ x ∈ (rows.filter flag).map fun r => (feats r).length, 1 ≤ x := by
    intro x hx
    obtain ⟨r, hr, rfl⟩ := List.mem_map.mp hx
    have hm := List.mem_filter.mp hr
    exact hpos r hm.1 hm.2
  obtain ⟨hA, hB⟩ := sum_length_ones _ hall
  constructor
  · rw [← hlen]
    exact hA
  · constructor
    · intro he r hr hf
      have hm : r ∈ rows.filter flag := List.mem_filter.mpr ⟨hr, hf⟩
      exact hB.mp (he.trans hlen.symm) _ (List.mem_map_of_mem _ hm)
    · intro hall2
      have hones : ∀ x ∈ (rows.filter flag).map fun r => (feats r).length, x = 1 := by
        intro x hx
        obtain ⟨r, hr, rfl⟩ := List.mem_map.mp hx
        have hm := List.mem_filter.mp hr
        exact hall2 r hm.1 hm.2
      exact (hB.mpr hones).trans hlen

/-- Claim C9: for each engine, the sum of the per-feature occurrence counts
in the final totals is at least that engine's incompatible-pattern count,
with equality exactly when every incompatible pattern (row) for that engine
has exactly one offending feature — each incompatible pattern bumps the
pattern counter once and one feature counter per offending feature. -/
theorem feature_count_sums (contents : List String) :
    ((analyzeLines contents).2.java_incompatible_patterns
        ≤ sumCounts (analyzeLines contents).2.java_feature_counts
      ∧ (sumCounts (analyzeLines contents).2.java_feature_counts
            = (analyzeLines contents).2.java_incompatible_patterns
          ↔ ∀ r ∈ (analyzeLines contents).1, r.java_incompatible = true →
              r.java_incompat_features.length = 1))
      ∧ ((analyzeLines contents).2.lucene_incompatible_patterns
          ≤ sumCounts (analyzeLines contents).2.lucene_feature_counts
        ∧ (sumCounts (analyzeLines contents).2.lucene_feature_counts
              = (analyzeLines contents).2.lucene_incompatible_patterns
            ↔ ∀ r ∈ (analyzeLines contents).1, r.lucene_incompatible = true →
                r.lucene_incompat_features.length = 1)) := by
  obtain ⟨h1, h2, h3, h4, h5, h6⟩ := analyzeLines_statsInv contents
  exact ⟨counts_sum_engine _ _ _ _ _ h1 h2 h3, counts_sum_engine _ _ _ _ _ h4 h5 h6⟩

/-- Corroboration of the spec's first testable property: `rex "foo(bar)"`
yields exactly one record with pattern `foo(bar)` and empty field, and that
pattern triggers no feature detector. -/
theorem rex_foo_bar_example :
    extract_from_rex "rex \"foo(bar)\"".data =
        [{ cmd := "rex", cmd_index_on_line := 1, field := "", pattern := "foo(bar)",
           pattern_index_in_cmd := 1 }]
      ∧ detect_features "foo(bar)".data = [] := by
  decide

/-- Corroboration of the spec's last testable property: an empty input
produces zero totals everywhere and no rows. -/
theorem empty_input_zero_totals :
    analyzeLines [] = ([], initialTotals) := by
  decide

end SplAudit
